import Mathlib

/-!
Shallow embedding of the VarlikRadar portfolio tracker (server side) and
verification of its specification claims.

Numeric modelling conventions, used consistently below:

* JavaScript numbers that the code obtains from decimal-string columns via
  `parseFloat` / `Number(x) || 0` are modelled as exact rationals (`ℚ`);
  the string/number round trips (`toString` and back) are the identity.
* `Number(x) || 0` maps `0` to `0` and is otherwise the identity on the
  parsed value, so it is modelled as the identity on `ℚ`.
* The explicit rounding step `x.toFixed(2)` in the source is modelled by
  `roundTo2` (round to the nearest multiple of 1/100, ties towards the
  larger value, exactly as `Number.prototype.toFixed` prescribes).
* Timestamps are modelled at day granularity: a date is a pair of an
  absolute month number and a day of month, linearised by `dateOrd`.
* External HTTP price providers are modelled as oracle functions
  `String → Option ℚ` (`none` = network failure / non-OK status / missing
  price field), matching `fetchBinancePrice` / `fetchYahooPrice`, which
  catch every failure and return `null`.
-/

namespace VarlikRadar

/-- Model of JavaScript `x.toFixed(2)` (re-parsed as a number): the nearest
multiple of 1/100, with ties resolved towards the larger value. -/
def roundTo2 (q : ℚ) : ℚ := (⌊q * 100 + 1/2⌋ : ℤ) / 100

/-- A row of the `assets` table (shared/schema.ts).  `createdAt` is omitted:
no claim mentions it. -/
structure AssetR where
  id : String
  type : String
  name : String
  symbol : String
  market : String
  quantity : ℚ
  averagePrice : ℚ
  currentPrice : ℚ
  currency : String
deriving Repr, DecidableEq

/-- A row of the `transactions` table (shared/schema.ts), with the date at
day granularity (see `dateOrd`). -/
structure TransactionR where
  id : String
  assetId : String
  type : String
  quantity : ℚ
  price : ℚ
  totalAmount : ℚ
  date : ℤ
deriving Repr, DecidableEq

/-- A row of the `incomes` / `expenses` tables (identical shape). -/
structure EntryR where
  category : String
  description : String
  amount : ℚ
  date : ℤ
deriving Repr, DecidableEq

/-- `DatabaseStorage.getAsset`: first row of the asset store whose id
matches. -/
def getAsset (store : List AssetR) (id : String) : Option AssetR :=
  store.find? (fun a => a.id == id)

/-- The asset-mutation side effect of `DatabaseStorage.createTransaction`
(priceService.ts lines 609-645).  The inserted transaction row itself is
returned unchanged by the source and is irrelevant to the asset store, so
the model returns the updated store.  `updateAsset` is modelled by mapping
the field update over the rows whose id matches. -/
def createTransaction (store : List AssetR) (t : TransactionR) : List AssetR :=
  match getAsset store t.assetId with
  | none => store
  | some asset =>
    let currentQuantity := asset.quantity
    let currentAveragePrice := asset.averagePrice
    let transactionQuantity := t.quantity
    let transactionPrice := t.price
    if t.type == "alış" then
      let currentValue := currentQuantity * currentAveragePrice
      let newValue := transactionQuantity * transactionPrice
      let newQuantity := currentQuantity + transactionQuantity
      let newAveragePrice := if 0 < newQuantity then (currentValue + newValue) / newQuantity else 0
      store.map (fun b =>
        if b.id == t.assetId then
          { b with quantity := newQuantity, averagePrice := roundTo2 newAveragePrice }
        else b)
    else if t.type == "satış" then
      let newQuantity := currentQuantity - transactionQuantity
      store.map (fun b =>
        if b.id == t.assetId then { b with quantity := max 0 newQuantity } else b)
    else store

/-- Auxiliary: `find?` commutes with a `map` whose function preserves the
predicate. -/
theorem find?_map_of_pred {α : Type} (f : α → α) (p : α → Bool)
    (h : ∀ x, p (f x) = p x) (l : List α) :
    (l.map f).find? p = (l.find? p).map f := by
  induction l with
  | nil => rfl
  | cons a l ih =>
    by_cases hpa : p a = true
    · rw [List.map_cons, List.find?_cons_of_pos _ (by rw [h]; exact hpa),
        List.find?_cons_of_pos _ hpa, Option.map_some']
    · rw [List.map_cons, List.find?_cons_of_neg _ (by rw [h]; simpa using hpa),
        List.find?_cons_of_neg _ (by simpa using hpa), ih]

/-- C2: a sell transaction sets the matched asset's quantity to
`max 0 (q₀ - q_t)` and leaves every other field, in particular
`averagePrice`, unchanged. -/
theorem sell_clamps_quantity (store : List AssetR) (t : TransactionR) (a : AssetR)
    (hfind : getAsset store t.assetId = some a) (hty : t.type = "satış") :
    getAsset (createTransaction store t) t.assetId =
      some { a with quantity := max 0 (a.quantity - t.quantity) } ∧
    (0:ℚ) ≤ max 0 (a.quantity - t.quantity) := by
  refine ⟨?_, le_max_left _ _⟩
  have h' : List.find? (fun b : AssetR => b.id == t.assetId) store = some a := by
    simpa [getAsset] using hfind
  have hpa : (a.id == t.assetId) = true := by simpa using List.find?_some h'
  unfold createTransaction
  rw [hfind]
  simp only [hty]
  rw [if_neg (by decide : ¬ (("satış" == "alış") = true))]
  rw [if_pos (by decide : (("satış" == "satış") = true))]
  unfold getAsset
  rw [find?_map_of_pred _ _ (fun b => by by_cases hb : (b.id == t.assetId) = true <;> simp [hb]),
    h', Option.map_some']
  simp [hpa]

/-- Witness for `sell_clamps_quantity` at a concrete store and transaction. -/
theorem sell_clamps_quantity_witness :
    getAsset (createTransaction
        [({ id := "a1", type := "hisse", name := "A", symbol := "AAA", market := "BIST",
            quantity := 20, averagePrice := 110, currentPrice := 100, currency := "TRY" } : AssetR)]
        ({ id := "t1", assetId := "a1", type := "satış", quantity := 25, price := 100,
           totalAmount := 2500, date := 1 } : TransactionR)) "a1" =
      some ({ id := "a1", type := "hisse", name := "A", symbol := "AAA", market := "BIST",
              quantity := max 0 (20 - 25), averagePrice := 110, currentPrice := 100,
              currency := "TRY" } : AssetR) :=
  (sell_clamps_quantity _ _
    ({ id := "a1", type := "hisse", name := "A", symbol := "AAA", market := "BIST",
       quantity := 20, averagePrice := 110, currentPrice := 100, currency := "TRY" } : AssetR)
    (by decide) rfl).1

/-- C1 (amended): a buy transaction sets the matched asset's quantity to
`q₀ + q_t` and its average price to the weighted average
`(q₀·a₀ + q_t·p_t) / (q₀ + q_t)` (0 when `q₀ + q_t ≤ 0`) rounded to two
decimals, because the source stores `newAveragePrice.toFixed(2)`. -/
theorem buy_weighted_average (store : List AssetR) (t : TransactionR) (a : AssetR)
    (hfind : getAsset store t.assetId = some a) (hty : t.type = "alış") :
    getAsset (createTransaction store t) t.assetId =
      some { a with
             quantity := a.quantity + t.quantity,
             averagePrice := roundTo2
               (if 0 < a.quantity + t.quantity then
                  (a.quantity * a.averagePrice + t.quantity * t.price) /
                    (a.quantity + t.quantity)
                else 0) } := by
  have h' : List.find? (fun b : AssetR => b.id == t.assetId) store = some a := by
    simpa [getAsset] using hfind
  have hpa : (a.id == t.assetId) = true := by simpa using List.find?_some h'
  unfold createTransaction
  rw [hfind]
  simp only [hty]
  rw [if_pos (by decide : (("alış" == "alış") = true))]
  unfold getAsset
  rw [find?_map_of_pred _ _ (fun b => by by_cases hb : (b.id == t.assetId) = true <;> simp [hb]),
    h', Option.map_some']
  simp [hpa]

/-- Witness for `buy_weighted_average`: second buy of the spec scenario
(10 units held at average 100, buy 10 at 120 gives average 110). -/
theorem buy_weighted_average_witness :
    getAsset (createTransaction
        [({ id := "a1", type := "hisse", name := "A", symbol := "AAA", market := "BIST",
            quantity := 10, averagePrice := 100, currentPrice := 100, currency := "TRY" } : AssetR)]
        ({ id := "t2", assetId := "a1", type := "alış", quantity := 10, price := 120,
           totalAmount := 1200, date := 2 } : TransactionR)) "a1" =
      some ({ id := "a1", type := "hisse", name := "A", symbol := "AAA", market := "BIST",
              quantity := 10 + 10,
              averagePrice := roundTo2 (if 0 < (10:ℚ) + 10 then (10 * 100 + 10 * 120) / (10 + 10) else 0),
              currentPrice := 100, currency := "TRY" } : AssetR) :=
  buy_weighted_average _ _
    ({ id := "a1", type := "hisse", name := "A", symbol := "AAA", market := "BIST",
       quantity := 10, averagePrice := 100, currentPrice := 100, currency := "TRY" } : AssetR)
    (by decide) rfl

/-- C1 counterexample to the unrounded claim: holding 1 unit at average
price 1, buying 2 units at price 2 stores average price 1.67
(`toFixed(2)` of 5/3), which differs from the exact weighted average 5/3
asserted by the claim. -/
theorem buy_average_rounded_counterexample :
    (getAsset (createTransaction
        [({ id := "a1", type := "hisse", name := "A", symbol := "AAA", market := "BIST",
            quantity := 1, averagePrice := 1, currentPrice := 1, currency := "TRY" } : AssetR)]
        ({ id := "t1", assetId := "a1", type := "alış", quantity := 2, price := 2,
           totalAmount := 4, date := 1 } : TransactionR)) "a1").map (fun b => b.averagePrice) =
      some (167/100) ∧
    (167/100 : ℚ) ≠ ((1 : ℚ) * 1 + 2 * 2) / ((1 : ℚ) + 2) := by
  constructor
  · simp only [createTransaction, getAsset]
    norm_num [roundTo2]
  · norm_num

/-- One entry of the bulk-refresh report (`PriceUpdateResult`,
priceService.ts lines 83-90; the optional `error` field is omitted: it is
only set when the storage layer throws, which the pure model cannot). -/
structure PriceResult where
  assetId : String
  symbol : String
  oldPrice : ℚ
  newPrice : Option ℚ
  success : Bool
deriving Repr, DecidableEq

/-- The per-type price dispatch inside `updateAllAssetPrices`
(priceService.ts lines 101-108).  `bo` and `yo` are oracles standing for
`fetchBinancePrice` and `fetchYahooPrice`, whole HTTP calls included
(`none` = any failure).  For `gayrimenkul` the code reuses the old price;
for an unknown type `newPrice` stays `null`. -/
def fetchForAsset (bo : String → Option ℚ) (yo : String → String → Option ℚ)
    (a : AssetR) : Option ℚ :=
  if a.type == "kripto" then bo a.symbol
  else if a.type == "hisse" || a.type == "etf" then yo a.symbol a.market
  else if a.type == "gayrimenkul" then some a.currentPrice
  else none

/-- `success: newPrice !== null && newPrice > 0` (priceService.ts line 125). -/
def priceSuccess : Option ℚ → Bool
  | some p => decide (0 < p)
  | none => false

/-- `storage.updateAsset(asset.id, { currentPrice: newPrice.toFixed(2) })`. -/
def applyPriceUpdate (s : List AssetR) (aid : String) (p : ℚ) : List AssetR :=
  s.map (fun b => if b.id == aid then { b with currentPrice := roundTo2 p } else b)

/-- One iteration of the `for (const asset of assets)` loop of
`updateAllAssetPrices` (priceService.ts lines 96-128), threading the report
accumulator and the asset store. -/
def priceStep (bo : String → Option ℚ) (yo : String → String → Option ℚ)
    (acc : List PriceResult × List AssetR) (a : AssetR) :
    List PriceResult × List AssetR :=
  let oldPrice := a.currentPrice
  let newPrice := fetchForAsset bo yo a
  let store' := match newPrice with
    | some p => if 0 < p then applyPriceUpdate acc.2 a.id p else acc.2
    | none => acc.2
  (acc.1 ++ [{ assetId := a.id, symbol := a.symbol, oldPrice := oldPrice,
               newPrice := newPrice, success := priceSuccess newPrice }], store')

/-- `updateAllAssetPrices` (priceService.ts lines 92-131): iterate over the
snapshot of the asset store, producing the report and the updated store. -/
def updateAllAssetPrices (bo : String → Option ℚ) (yo : String → String → Option ℚ)
    (assets : List AssetR) : List PriceResult × List AssetR :=
  assets.foldl (priceStep bo yo) ([], assets)

/-- The report entry the loop produces for one asset. -/
def priceResultFor (bo : String → Option ℚ) (yo : String → String → Option ℚ)
    (a : AssetR) : PriceResult :=
  { assetId := a.id, symbol := a.symbol, oldPrice := a.currentPrice,
    newPrice := fetchForAsset bo yo a, success := priceSuccess (fetchForAsset bo yo a) }

/-- The store row the loop leaves behind for one asset: overwritten (with
the two-decimal rendering) exactly when a strictly positive price arrived. -/
def priceRefreshedAsset (bo : String → Option ℚ) (yo : String → String → Option ℚ)
    (a : AssetR) : AssetR :=
  match fetchForAsset bo yo a with
  | some p => if 0 < p then { a with currentPrice := roundTo2 p } else a
  | none => a

theorem priceSuccess_iff (o : Option ℚ) :
    priceSuccess o = true ↔ ∃ p, o = some p ∧ 0 < p := by
  cases o <;> simp [priceSuccess]

theorem priceFold_fst (bo : String → Option ℚ) (yo : String → String → Option ℚ)
    (l : List AssetR) (res : List PriceResult) (s : List AssetR) :
    (l.foldl (priceStep bo yo) (res, s)).1 = res ++ l.map (priceResultFor bo yo) := by
  induction l generalizing res s with
  | nil => simp
  | cons a l ih =>
    rw [List.foldl_cons]
    have hstep : priceStep bo yo (res, s) a =
        (res ++ [priceResultFor bo yo a], (priceStep bo yo (res, s) a).2) := rfl
    rw [hstep, ih]
    simp

/-- A conditional row update whose condition holds nowhere is the identity. -/
theorem map_if_id {α : Type} (p : α → Bool) (g : α → α) (l : List α)
    (h : ∀ b ∈ l, p b = false) :
    l.map (fun b => if p b then g b else b) = l := by
  induction l with
  | nil => rfl
  | cons a l ih =>
    rw [List.map_cons, if_neg (by simp [h a (List.mem_cons_self a l)]),
      ih (fun b hb => h b (List.mem_cons_of_mem a hb))]

theorem applyPriceUpdate_no_match (s : List AssetR) (aid : String) (p : ℚ)
    (h : ∀ b ∈ s, (b.id == aid) = false) :
    applyPriceUpdate s aid p = s :=
  map_if_id _ _ _ h

theorem priceFold_snd (bo : String → Option ℚ) (yo : String → String → Option ℚ)
    (l : List AssetR) (pre : List AssetR) (res : List PriceResult)
    (hnd : (l.map (fun a => a.id)).Nodup)
    (hdisj : ∀ a ∈ l, ∀ b ∈ pre, (b.id == a.id) = false) :
    (l.foldl (priceStep bo yo) (res, pre ++ l)).2 =
      pre ++ l.map (priceRefreshedAsset bo yo) := by
  induction l generalizing pre res with
  | nil => simp
  | cons a l ih =>
    have hmemself : a ∈ a :: l := List.mem_cons_self a l
    have hndl : (l.map (fun a => a.id)).Nodup := (List.nodup_cons.mp (by simpa using hnd)).2
    have hanotin : a.id ∉ l.map (fun a => a.id) := (List.nodup_cons.mp (by simpa using hnd)).1
    have htail : ∀ b ∈ l, (b.id == a.id) = false := by
      intro b hb
      have : b.id ≠ a.id := fun he => hanotin (he ▸ List.mem_map_of_mem (fun a => a.id) hb)
      simpa using this
    have hstep : priceStep bo yo (res, pre ++ a :: l) a =
        (res ++ [priceResultFor bo yo a],
          (pre ++ [priceRefreshedAsset bo yo a]) ++ l) := by
      simp only [priceStep, priceResultFor, priceRefreshedAsset]
      cases hf : fetchForAsset bo yo a with
      | none => simp
      | some p =>
        by_cases hp : 0 < p
        · simp only [hp, if_true]
          unfold applyPriceUpdate
          rw [List.map_append, List.map_cons,
            map_if_id (fun b => b.id == a.id)
              (fun b => { b with currentPrice := roundTo2 p }) pre
              (fun b hb => hdisj a hmemself b hb),
            if_pos (by simp : (a.id == a.id) = true),
            map_if_id (fun b => b.id == a.id)
              (fun b => { b with currentPrice := roundTo2 p }) l htail]
          simp
        · simp [hp]
    rw [List.foldl_cons, hstep]
    rw [ih (pre ++ [priceRefreshedAsset bo yo a]) (res ++ [priceResultFor bo yo a]) hndl ?_]
    · simp
    · intro x hx b hb
      rcases List.mem_append.mp hb with hb | hb
      · exact hdisj x (List.mem_cons_of_mem a hx) b hb
      · have hbid : b.id = a.id := by
          have : b = priceRefreshedAsset bo yo a := by simpa using hb
          subst this
          unfold priceRefreshedAsset
          cases hf : fetchForAsset bo yo a with
          | none => rfl
          | some p => by_cases hp : 0 < p <;> simp [hp]
        rw [hbid]
        have : a.id ≠ x.id := by
          intro he
          exact (by simpa using htail x hx : x.id ≠ a.id) he.symm
        simpa using this

/-- C7: bulk price refresh, for any oracle behaviour and any store with
distinct asset ids: (a) the report has exactly one entry per asset, in
order, recording the prior price, the fetched price (`none` on failure) and
the success flag; an individual failure never prevents later assets from
being processed; (b) an asset's stored `currentPrice` is overwritten
(with the two-decimal rendering of the fetched price) exactly when the
fetch returned a strictly positive price; (c) the success flag is true
exactly when a strictly positive price was obtained. -/
theorem bulk_refresh_report_and_store (bo : String → Option ℚ)
    (yo : String → String → Option ℚ) (assets : List AssetR)
    (hnd : (assets.map (fun a => a.id)).Nodup) :
    (updateAllAssetPrices bo yo assets).1 = assets.map (priceResultFor bo yo) ∧
    (updateAllAssetPrices bo yo assets).2 = assets.map (priceRefreshedAsset bo yo) ∧
    ∀ r ∈ (updateAllAssetPrices bo yo assets).1,
      (r.success = true ↔ ∃ p, r.newPrice = some p ∧ 0 < p) := by
  refine ⟨?_, ?_, ?_⟩
  · exact (by simpa using priceFold_fst bo yo assets [] assets)
  · have := priceFold_snd bo yo assets [] [] hnd (by simp)
    simpa using this
  · intro r hr
    rw [(by simpa using priceFold_fst bo yo assets [] assets :
      (updateAllAssetPrices bo yo assets).1 = assets.map (priceResultFor bo yo))] at hr
    rcases List.mem_map.mp hr with ⟨a, _, rfl⟩
    exact priceSuccess_iff _

/-- Witness for `bulk_refresh_report_and_store`: a crypto asset whose fetch
fails and an equity whose fetch succeeds, in one batch. -/
theorem bulk_refresh_report_and_store_witness :
    (([({ id := "a1", type := "kripto", name := "X", symbol := "XYZNOPE", market := "Diğer",
          quantity := 1, averagePrice := 1, currentPrice := 2, currency := "TRY" } : AssetR),
        ({ id := "a2", type := "hisse", name := "T", symbol := "THYAO", market := "BIST",
           quantity := 3, averagePrice := 10, currentPrice := 10, currency := "TRY" } : AssetR)].map
          (fun a => a.id)).Nodup) ∧
    (updateAllAssetPrices (fun _ => none) (fun _ _ => some 50)
        [({ id := "a1", type := "kripto", name := "X", symbol := "XYZNOPE", market := "Diğer",
            quantity := 1, averagePrice := 1, currentPrice := 2, currency := "TRY" } : AssetR),
         ({ id := "a2", type := "hisse", name := "T", symbol := "THYAO", market := "BIST",
            quantity := 3, averagePrice := 10, currentPrice := 10, currency := "TRY" } : AssetR)]).1 =
      [({ id := "a1", type := "kripto", name := "X", symbol := "XYZNOPE", market := "Diğer",
          quantity := 1, averagePrice := 1, currentPrice := 2, currency := "TRY" } : AssetR),
       ({ id := "a2", type := "hisse", name := "T", symbol := "THYAO", market := "BIST",
          quantity := 3, averagePrice := 10, currentPrice := 10, currency := "TRY" } : AssetR)].map
        (priceResultFor (fun _ => none) (fun _ _ => some 50)) :=
  ⟨by decide,
   (bulk_refresh_report_and_store (fun _ => none) (fun _ _ => some 50) _ (by decide)).1⟩

/-- `fetchSingleAssetPrice` (priceService.ts lines 133-144): crypto goes to
Binance, equity/ETF to Yahoo, every other type returns `null` without any
fetch. -/
def fetchSingleAssetPrice (bo : String → Option ℚ) (yo : String → String → Option ℚ)
    (symbol type market : String) : Option ℚ :=
  if type == "kripto" then bo symbol
  else if type == "hisse" || type == "etf" then yo symbol market
  else none

/-- Response of `GET /api/prices/:symbol` (routes.ts lines 173-196). -/
inductive PriceRouteResp where
  | badRequest
  | notFound
  | ok (price : ℚ)
deriving Repr, DecidableEq

/-- The route handler: a missing or empty (JS-falsy) `type`/`market` query
param gives 400; a `null` price gives 404 "Price not found"; otherwise 200
with the price. -/
def getPriceRoute (bo : String → Option ℚ) (yo : String → String → Option ℚ)
    (symbol : String) (type? market? : Option String) : PriceRouteResp :=
  let t := type?.getD ""
  let m := market?.getD ""
  if t == "" || m == "" then .badRequest
  else
    match fetchSingleAssetPrice bo yo symbol t m with
    | none => .notFound
    | some price => .ok price

/-- C10: for any oracle behaviour, any symbol and any (non-empty) market,
a type outside {"kripto", "hisse", "etf"} — in particular the valid type
"gayrimenkul" — makes `fetchSingleAssetPrice` return `null`, so the route
answers 404, never 200.  (A present-but-empty query param is JS-falsy and
is treated as absent, giving 400.) -/
theorem single_price_unknown_type (bo : String → Option ℚ)
    (yo : String → String → Option ℚ) (symbol t m : String)
    (h1 : t ≠ "kripto") (h2 : t ≠ "hisse") (h3 : t ≠ "etf")
    (h4 : t ≠ "") (h5 : m ≠ "") :
    fetchSingleAssetPrice bo yo symbol t m = none ∧
    getPriceRoute bo yo symbol (some t) (some m) = PriceRouteResp.notFound := by
  have hf : fetchSingleAssetPrice bo yo symbol t m = none := by
    simp [fetchSingleAssetPrice, h1, h2, h3]
  exact ⟨hf, by simp [getPriceRoute, h4, h5, hf]⟩

/-- Witness for `single_price_unknown_type`: type "gayrimenkul", with
oracles that would happily answer, still yields 404. -/
theorem single_price_unknown_type_witness :
    fetchSingleAssetPrice (fun _ => some 5) (fun _ _ => some 5) "EV1" "gayrimenkul" "Diğer" =
      none ∧
    getPriceRoute (fun _ => some 5) (fun _ _ => some 5) "EV1"
      (some "gayrimenkul") (some "Diğer") = PriceRouteResp.notFound :=
  single_price_unknown_type (fun _ => some 5) (fun _ _ => some 5) "EV1" "gayrimenkul" "Diğer"
    (by decide) (by decide) (by decide) (by decide) (by decide)

/-- Payload shape accepted by `insertAssetSchema` (shared/schema.ts lines
32-35): `createInsertSchema(assets).omit({id, createdAt})`.  `quantity` and
`currency` have column defaults, hence optional. -/
structure InsertAssetR where
  type : String
  name : String
  symbol : String
  market : String
  quantity : Option ℚ
  averagePrice : ℚ
  currentPrice : ℚ
  currency : Option String
deriving Repr, DecidableEq

/-- `insertAssetSchema` validation: drizzle-zod derives plain per-field type
checks (decimal columns become unconstrained strings) with no enum
membership, sign, or range refinement, so every well-shaped payload — the
whole `InsertAssetR` type — is accepted. -/
def insertAssetSchemaAccepts (_ : InsertAssetR) : Bool := true

/-- `DatabaseStorage.createAsset`: insert the validated payload as a new
row (`newId` stands for the database-generated uuid; column defaults fill
the omitted fields). -/
def createAsset (store : List AssetR) (p : InsertAssetR) (newId : String) : List AssetR :=
  store ++ [{ id := newId, type := p.type, name := p.name, symbol := p.symbol,
              market := p.market, quantity := p.quantity.getD 0,
              averagePrice := p.averagePrice, currentPrice := p.currentPrice,
              currency := p.currency.getD "TRY" }]

/-- C9 counterexample: the schema accepts a payload with quantity −5 and
`createAsset` stores it verbatim, so an asset with negative quantity is
reachable through `POST /api/assets`. -/
theorem negative_quantity_reachable_counterexample :
    insertAssetSchemaAccepts
      ({ type := "hisse", name := "N", symbol := "NNN", market := "BIST",
         quantity := some (-5), averagePrice := 10, currentPrice := 10,
         currency := none } : InsertAssetR) = true ∧
    (createAsset []
      ({ type := "hisse", name := "N", symbol := "NNN", market := "BIST",
         quantity := some (-5), averagePrice := 10, currentPrice := 10,
         currency := none } : InsertAssetR) "a1").map (fun a => a.quantity) = [-5] ∧
    ¬ ((0:ℚ) ≤ -5) := by
  refine ⟨rfl, by simp [createAsset], by norm_num⟩

/-- C9 (amended): transaction application preserves non-negative quantities
whenever the transaction quantity is itself non-negative; sell transactions
preserve them unconditionally (the zero clamp); and the bulk price refresh
never changes any quantity.  Asset creation (or a buy with a
schema-accepted negative quantity) can, however, produce a negative
quantity — see the counterexample. -/
theorem quantity_nonneg_preserved :
    (∀ (store : List AssetR) (t : TransactionR),
      (∀ a ∈ store, 0 ≤ a.quantity) → 0 ≤ t.quantity →
        ∀ a ∈ createTransaction store t, 0 ≤ a.quantity) ∧
    (∀ (store : List AssetR) (t : TransactionR),
      (∀ a ∈ store, 0 ≤ a.quantity) → t.type = "satış" →
        ∀ a ∈ createTransaction store t, 0 ≤ a.quantity) ∧
    (∀ (bo : String → Option ℚ) (yo : String → String → Option ℚ)
        (assets : List AssetR),
      ((updateAllAssetPrices bo yo assets).2.map (fun a => a.quantity)) =
        assets.map (fun a => a.quantity)) := by
  refine ⟨?_, ?_, ?_⟩
  · intro store t hstore htq a ha
    unfold createTransaction at ha
    cases hfind : getAsset store t.assetId with
    | none => rw [hfind] at ha; exact hstore a ha
    | some a0 =>
      rw [hfind] at ha
      have ha0 : 0 ≤ a0.quantity :=
        hstore a0 (List.mem_of_find?_eq_some (by simpa [getAsset] using hfind))
      by_cases hb : (t.type == "alış") = true
      · simp only [hb, if_true, List.mem_map] at ha
        rcases ha with ⟨b, hbmem, rfl⟩
        by_cases hid : (b.id == t.assetId) = true
        · simp only [hid, if_true]
          exact add_nonneg ha0 htq
        · simp only [hid, Bool.false_eq_true, if_false]
          exact hstore b hbmem
      · by_cases hs : (t.type == "satış") = true
        · simp only [hb, hs, Bool.false_eq_true, if_false, if_true, List.mem_map] at ha
          rcases ha with ⟨b, hbmem, rfl⟩
          by_cases hid : (b.id == t.assetId) = true
          · simp only [hid, if_true]
            exact le_max_left _ _
          · simp only [hid, Bool.false_eq_true, if_false]
            exact hstore b hbmem
        · simp only [hb, hs, Bool.false_eq_true, if_false] at ha
          exact hstore a ha
  · intro store t hstore hty a ha
    unfold createTransaction at ha
    cases hfind : getAsset store t.assetId with
    | none => rw [hfind] at ha; exact hstore a ha
    | some a0 =>
      rw [hfind] at ha
      have hb : (t.type == "alış") = false := by simp [hty]
      have hs : (t.type == "satış") = true := by simp [hty]
      simp only [hb, hs, Bool.false_eq_true, if_false, if_true, List.mem_map] at ha
      rcases ha with ⟨b, hbmem, rfl⟩
      by_cases hid : (b.id == t.assetId) = true
      · simp only [hid, if_true]
        exact le_max_left _ _
      · simp only [hid, Bool.false_eq_true, if_false]
        exact hstore b hbmem
  · intro bo yo assets
    have key : ∀ (l : List AssetR) (res : List PriceResult) (s : List AssetR),
        ((l.foldl (priceStep bo yo) (res, s)).2.map (fun a => a.quantity)) =
          s.map (fun a => a.quantity) := by
      intro l
      induction l with
      | nil => intro res s; rfl
      | cons a l ih =>
        intro res s
        rw [List.foldl_cons, show priceStep bo yo (res, s) a =
          ((priceStep bo yo (res, s) a).1, (priceStep bo yo (res, s) a).2) from rfl, ih]
        simp only [priceStep]
        cases hf : fetchForAsset bo yo a with
        | none => rfl
        | some p =>
          by_cases hp : 0 < p
          · simp only [hp, if_true]
            unfold applyPriceUpdate
            rw [List.map_map]
            apply List.map_congr_left
            intro b _
            by_cases hid : b.id = a.id <;> simp [hid]
          · simp [hp]
    exact key assets [] assets

/-- Witness for `quantity_nonneg_preserved`: a buy of 2 units on a 1-unit
holding keeps the stored quantity non-negative. -/
theorem quantity_nonneg_preserved_witness :
    (∀ a ∈ [({ id := "a1", type := "hisse", name := "A", symbol := "AAA", market := "BIST",
               quantity := 1, averagePrice := 1, currentPrice := 1, currency := "TRY" } : AssetR)],
        0 ≤ a.quantity) ∧
    (0:ℚ) ≤ 2 ∧
    ∀ a ∈ createTransaction
        [({ id := "a1", type := "hisse", name := "A", symbol := "AAA", market := "BIST",
            quantity := 1, averagePrice := 1, currentPrice := 1, currency := "TRY" } : AssetR)]
        ({ id := "t1", assetId := "a1", type := "alış", quantity := 2, price := 1,
           totalAmount := 2, date := 1 } : TransactionR), 0 ≤ a.quantity := by
  refine ⟨?_, by norm_num, ?_⟩
  · intro a ha
    simp only [List.mem_singleton] at ha
    subst ha
    norm_num
  · exact quantity_nonneg_preserved.1 _ _
      (by intro a ha; simp only [List.mem_singleton] at ha; subst ha; norm_num)
      (by norm_num)

/-! ### String-keyed maps

`getBudgetSummary`, `getAssetAllocation` and `getMonthlyPerformance` all
accumulate into a JavaScript `Map`.  A `Map` preserves insertion order and
`set` overwrites in place, which an association list models exactly. -/

/-- `List.find?_cons_of_pos` with the predicate explicit (for `rw`). -/
theorem find?_cons_pos {α : Type} (p : α → Bool) (a : α) (l : List α) (h : p a = true) :
    (a :: l).find? p = some a :=
  List.find?_cons_of_pos l h

/-- `List.find?_cons_of_neg` with the predicate explicit (for `rw`). -/
theorem find?_cons_neg {α : Type} (p : α → Bool) (a : α) (l : List α) (h : p a = false) :
    (a :: l).find? p = l.find? p :=
  List.find?_cons_of_neg l (by simp [h])

/-- `Map.get`: value at the first (and, with distinct keys, only) entry. -/
def smapFind {α : Type} (m : List (String × α)) (k : String) : Option α :=
  (m.find? (fun e => e.1 == k)).map (fun e => e.2)

/-- `Map.has`. -/
def smapHas {α : Type} (m : List (String × α)) (k : String) : Bool :=
  m.any (fun e => e.1 == k)

/-- `Map.set`: overwrite in place when the key is present, append otherwise. -/
def smapSet {α : Type} (m : List (String × α)) (k : String) (v : α) : List (String × α) :=
  if smapHas m k then m.map (fun e => if e.1 == k then (k, v) else e) else m ++ [(k, v)]

theorem smapHas_iff {α : Type} (m : List (String × α)) (k : String) :
    smapHas m k = true ↔ k ∈ m.map Prod.fst := by
  unfold smapHas
  simp [List.any_eq_true, List.mem_map, beq_iff_eq]

theorem smapHas_eq_isSome {α : Type} (m : List (String × α)) (k : String) :
    smapHas m k = (m.find? (fun e => e.1 == k)).isSome := by
  induction m with
  | nil => rfl
  | cons e m ih =>
    by_cases he : (e.1 == k) = true
    · rw [find?_cons_pos (fun e => e.1 == k) e m he]
      simp [smapHas, he]
    · have he' : (e.1 == k) = false := by simpa using he
      rw [find?_cons_neg (fun e => e.1 == k) e m he', ← ih]
      simp [smapHas, he']

theorem find?_overwrite {α : Type} (m : List (String × α)) (k : String) (v : α) :
    (m.map (fun e => if e.1 == k then (k, v) else e)).find? (fun e => e.1 == k) =
      (m.find? (fun e => e.1 == k)).map (fun _ => (k, v)) := by
  induction m with
  | nil => rfl
  | cons e m ih =>
    by_cases he : (e.1 == k) = true
    · rw [List.map_cons, if_pos he,
        find?_cons_pos (fun e => e.1 == k) (k, v) _ (by simp),
        find?_cons_pos (fun e => e.1 == k) e m he, Option.map_some']
    · have he' : (e.1 == k) = false := by simpa using he
      rw [List.map_cons, if_neg (by simp [he']),
        find?_cons_neg (fun e => e.1 == k) e _ he',
        find?_cons_neg (fun e => e.1 == k) e m he', ih]

theorem find?_overwrite_ne {α : Type} (m : List (String × α)) (k k' : String) (v : α)
    (h : k' ≠ k) :
    (m.map (fun e => if e.1 == k then (k, v) else e)).find? (fun e => e.1 == k') =
      m.find? (fun e => e.1 == k') := by
  induction m with
  | nil => rfl
  | cons e m ih =>
    by_cases he : (e.1 == k) = true
    · have he' : e.1 = k := by simpa using he
      rw [List.map_cons, if_pos he,
        find?_cons_neg (fun e => e.1 == k') (k, v) _ (by simpa using Ne.symm h),
        find?_cons_neg (fun e => e.1 == k') e m
          (by show (e.1 == k') = false; rw [he']; simpa using Ne.symm h), ih]
    · have he' : (e.1 == k) = false := by simpa using he
      rw [List.map_cons, if_neg (by simp [he'])]
      by_cases hek : (e.1 == k') = true
      · rw [find?_cons_pos (fun e => e.1 == k') e _ hek,
          find?_cons_pos (fun e => e.1 == k') e m hek]
      · have hek' : (e.1 == k') = false := by simpa using hek
        rw [find?_cons_neg (fun e => e.1 == k') e _ hek',
          find?_cons_neg (fun e => e.1 == k') e m hek', ih]

theorem smapFind_set_self {α : Type} (m : List (String × α)) (k : String) (v : α) :
    smapFind (smapSet m k v) k = some v := by
  unfold smapSet smapFind
  by_cases h : smapHas m k = true
  · rw [if_pos h, find?_overwrite]
    have hs : (m.find? (fun e => e.1 == k)).isSome = true := by
      rw [← smapHas_eq_isSome]; exact h
    rcases Option.isSome_iff_exists.mp hs with ⟨e₀, he₀⟩
    rw [he₀]; rfl
  · have hnone : m.find? (fun e => e.1 == k) = none := by
      have hf : smapHas m k = false := by simpa using h
      rw [smapHas_eq_isSome] at hf
      exact Option.not_isSome_iff_eq_none.mp (by simp [hf])
    rw [if_neg h, List.find?_append, hnone,
      find?_cons_pos (fun e => e.1 == k) (k, v) [] (by simp)]
    rfl

theorem smapFind_set_other {α : Type} (m : List (String × α)) (k k' : String) (v : α)
    (h : k' ≠ k) :
    smapFind (smapSet m k v) k' = smapFind m k' := by
  unfold smapSet smapFind
  by_cases hh : smapHas m k = true
  · rw [if_pos hh, find?_overwrite_ne m k k' v h]
  · rw [if_neg hh, List.find?_append,
      find?_cons_neg (fun e => e.1 == k') (k, v) [] (by simpa using Ne.symm h)]
    simp

theorem keys_smapSet_of_has {α : Type} (m : List (String × α)) (k : String) (v : α)
    (hh : smapHas m k = true) :
    (smapSet m k v).map Prod.fst = m.map Prod.fst := by
  unfold smapSet
  rw [if_pos hh, List.map_map]
  apply List.map_congr_left
  intro e _
  by_cases he : (e.1 == k) = true
  · have he' : e.1 = k := by simpa using he
    simp [he, he']
  · have he' : ¬ e.1 = k := by simpa using he
    simp [he, he']

theorem keys_smapSet_of_not_has {α : Type} (m : List (String × α)) (k : String) (v : α)
    (hh : smapHas m k = false) :
    (smapSet m k v).map Prod.fst = m.map Prod.fst ++ [k] := by
  unfold smapSet
  rw [if_neg (by simp [hh])]
  simp

theorem smapSet_keys_nodup {α : Type} (m : List (String × α)) (k : String) (v : α)
    (hnd : (m.map Prod.fst).Nodup) :
    ((smapSet m k v).map Prod.fst).Nodup := by
  by_cases hh : smapHas m k = true
  · rw [keys_smapSet_of_has m k v hh]; exact hnd
  · rw [keys_smapSet_of_not_has m k v (by simpa using hh)]
    refine List.Nodup.append hnd (List.nodup_singleton k) ?_
    intro x hx hk
    rcases List.mem_singleton.mp hk with rfl
    exact hh ((smapHas_iff m x).mpr hx)

theorem mem_keys_smapSet {α : Type} (m : List (String × α)) (c k : String) (v : α) :
    k ∈ (smapSet m c v).map Prod.fst ↔ k ∈ m.map Prod.fst ∨ k = c := by
  by_cases hh : smapHas m c = true
  · rw [keys_smapSet_of_has m c v hh]
    constructor
    · exact Or.inl
    · rintro (h | rfl)
      · exact h
      · exact (smapHas_iff m k).mp hh
  · rw [keys_smapSet_of_not_has m c v (by simpa using hh)]
    simp

theorem smapFind_of_mem {α : Type} (m : List (String × α)) (e : String × α)
    (hnd : (m.map Prod.fst).Nodup) (hm : e ∈ m) :
    smapFind m e.1 = some e.2 := by
  induction m with
  | nil => simp at hm
  | cons e₀ m ih =>
    rcases List.mem_cons.mp hm with rfl | hm'
    · unfold smapFind
      rw [find?_cons_pos (fun x => x.1 == e.1) e m (by simp)]
      rfl
    · have hne : (e₀.1 == e.1) = false := by
        have h1 : e.1 ∈ m.map Prod.fst := List.mem_map_of_mem Prod.fst hm'
        have h2 : e₀.1 ∉ m.map Prod.fst := (List.nodup_cons.mp (by simpa using hnd)).1
        simp only [beq_eq_false_iff_ne, ne_eq]
        intro hc
        exact h2 (hc ▸ h1)
      unfold smapFind
      rw [find?_cons_neg (fun x => x.1 == e.1) e₀ m hne]
      exact ih (List.nodup_cons.mp (by simpa using hnd)).2 hm'

/-- The optional date filtering of `getBudgetSummary` (priceService.ts lines
882-889): a `startDate` keeps entries with `date >= startDate`, an
`endDate` keeps entries with `date <= endDate` — both bounds inclusive. -/
def filterByRange (l : List EntryR) (startDate endDate : Option ℤ) : List EntryR :=
  let l1 := match startDate with
    | some s => l.filter (fun i => s ≤ i.date)
    | none => l
  match endDate with
  | some en => l1.filter (fun i => i.date ≤ en)
  | none => l1

/-- One step of the per-category grouping (`Map.get ... || 0` then
`Map.set`, priceService.ts lines 897-907). -/
def categoryStep (m : List (String × ℚ)) (e : EntryR) : List (String × ℚ) :=
  smapSet m e.category ((smapFind m e.category).getD 0 + e.amount)

/-- `incomeByCategory` / `expenseByCategory` accumulation. -/
def categoryTotals (l : List EntryR) : List (String × ℚ) :=
  l.foldl categoryStep []

structure CategoryAmount where
  category : String
  amount : ℚ
  percentage : ℚ
deriving Repr, DecidableEq

structure BudgetSummaryR where
  totalIncome : ℚ
  totalExpense : ℚ
  balance : ℚ
  incomeByCategory : List CategoryAmount
  expenseByCategory : List CategoryAmount
deriving Repr, DecidableEq

/-- `DatabaseStorage.getBudgetSummary` (priceService.ts lines 877-924). -/
def getBudgetSummary (incomes expenses : List EntryR)
    (startDate endDate : Option ℤ) : BudgetSummaryR :=
  let allIncomes := filterByRange incomes startDate endDate
  let allExpenses := filterByRange expenses startDate endDate
  let totalIncome := allIncomes.foldl (fun s i => s + i.amount) 0
  let totalExpense := allExpenses.foldl (fun s e => s + e.amount) 0
  let balance := totalIncome - totalExpense
  { totalIncome := totalIncome
    totalExpense := totalExpense
    balance := balance
    incomeByCategory := (categoryTotals allIncomes).map (fun e =>
      { category := e.1, amount := e.2,
        percentage := if 0 < totalIncome then e.2 / totalIncome * 100 else 0 })
    expenseByCategory := (categoryTotals allExpenses).map (fun e =>
      { category := e.1, amount := e.2,
        percentage := if 0 < totalExpense then e.2 / totalExpense * 100 else 0 }) }

theorem foldl_add_eq_sum {α : Type} (f : α → ℚ) (l : List α) (c : ℚ) :
    l.foldl (fun s x => s + f x) c = c + (l.map f).sum := by
  induction l generalizing c with
  | nil => simp
  | cons a l ih =>
    rw [List.foldl_cons, ih, List.map_cons, List.sum_cons]
    ring

theorem filterByRange_eq (l : List EntryR) (s? e? : Option ℤ) :
    filterByRange l s? e? =
      l.filter (fun i =>
        (s?.all fun s => decide (s ≤ i.date)) && (e?.all fun en => decide (i.date ≤ en))) := by
  cases s? <;> cases e? <;>
    simp [filterByRange, List.filter_filter, Bool.and_comm]

theorem categoryFold_aux (l : List EntryR) (m : List (String × ℚ))
    (hnd : (m.map Prod.fst).Nodup) :
    ((l.foldl categoryStep m).map Prod.fst).Nodup ∧
    (∀ k, (smapFind (l.foldl categoryStep m) k).getD 0 =
      (smapFind m k).getD 0 +
        ((l.filter (fun e => e.category == k)).map (fun e => e.amount)).sum) ∧
    (∀ k, k ∈ (l.foldl categoryStep m).map Prod.fst ↔
      k ∈ m.map Prod.fst ∨ ∃ e ∈ l, e.category = k) := by
  induction l generalizing m with
  | nil => exact ⟨hnd, by simp, by simp⟩
  | cons e l ih =>
    have hnd' : ((categoryStep m e).map Prod.fst).Nodup := smapSet_keys_nodup _ _ _ hnd
    obtain ⟨ihnd, ihsum, ihmem⟩ := ih (categoryStep m e) hnd'
    refine ⟨?_, ?_, ?_⟩
    · rw [List.foldl_cons]; exact ihnd
    · intro k
      rw [List.foldl_cons, ihsum k]
      by_cases hk : k = e.category
      · rw [hk]
        have h1 : (smapFind (categoryStep m e) e.category).getD 0 =
            (smapFind m e.category).getD 0 + e.amount := by
          unfold categoryStep
          rw [smapFind_set_self]
          rfl
        rw [h1, List.filter_cons_of_pos (by simp), List.map_cons, List.sum_cons]
        ring
      · have h2 : smapFind (categoryStep m e) k = smapFind m k := by
          unfold categoryStep
          exact smapFind_set_other m e.category k _ hk
        rw [h2, List.filter_cons_of_neg (by simpa using fun hc => hk hc.symm)]
    · intro k
      rw [List.foldl_cons, ihmem k]
      unfold categoryStep
      rw [mem_keys_smapSet]
      constructor
      · rintro ((h | rfl) | ⟨e', he', rfl⟩)
        · exact Or.inl h
        · exact Or.inr ⟨e, List.mem_cons_self e l, rfl⟩
        · exact Or.inr ⟨e', List.mem_cons_of_mem e he', rfl⟩
      · rintro (h | ⟨e', he', rfl⟩)
        · exact Or.inl (Or.inl h)
        · rcases List.mem_cons.mp he' with rfl | he''
          · exact Or.inl (Or.inr rfl)
          · exact Or.inr ⟨e', he'', rfl⟩

theorem categoryTotals_spec (l : List EntryR) :
    (∀ p ∈ categoryTotals l,
      p.2 = ((l.filter (fun e => e.category == p.1)).map (fun e => e.amount)).sum) ∧
    ((categoryTotals l).map Prod.fst).Nodup ∧
    (∀ k, k ∈ (categoryTotals l).map Prod.fst ↔ ∃ e ∈ l, e.category = k) := by
  unfold categoryTotals
  obtain ⟨h1, h2, h3⟩ := categoryFold_aux l [] (by simp)
  refine ⟨?_, h1, ?_⟩
  · intro p hp
    have hfind := smapFind_of_mem _ p h1 hp
    have h4 := h2 p.1
    rw [hfind] at h4
    simpa [smapFind] using h4
  · intro k
    rw [h3 k]
    simp

/-- C6 (amended): `getBudgetSummary` sums the amounts of entries inside the
inclusive date range; `balance = totalIncome − totalExpense` exactly; every
listed category carries the sum of its matching entries and the percentage
`amount / total × 100` whenever the side's total is strictly positive (0
when the total is zero or negative — the code guards with `total > 0`, not
`total ≠ 0`); a category is listed exactly when some entry in range has it. -/
theorem budget_summary_correct (incomes expenses : List EntryR) (s? e? : Option ℤ) :
    (getBudgetSummary incomes expenses s? e?).totalIncome =
      ((incomes.filter (fun i =>
        (s?.all fun s => decide (s ≤ i.date)) &&
        (e?.all fun en => decide (i.date ≤ en)))).map (fun i => i.amount)).sum ∧
    (getBudgetSummary incomes expenses s? e?).totalExpense =
      ((expenses.filter (fun i =>
        (s?.all fun s => decide (s ≤ i.date)) &&
        (e?.all fun en => decide (i.date ≤ en)))).map (fun i => i.amount)).sum ∧
    (getBudgetSummary incomes expenses s? e?).balance =
      (getBudgetSummary incomes expenses s? e?).totalIncome -
        (getBudgetSummary incomes expenses s? e?).totalExpense ∧
    (∀ c ∈ (getBudgetSummary incomes expenses s? e?).incomeByCategory,
      c.amount = (((filterByRange incomes s? e?).filter
          (fun i => i.category == c.category)).map (fun i => i.amount)).sum ∧
      c.percentage = (if 0 < (getBudgetSummary incomes expenses s? e?).totalIncome then
          c.amount / (getBudgetSummary incomes expenses s? e?).totalIncome * 100 else 0)) ∧
    (∀ k, (∃ c ∈ (getBudgetSummary incomes expenses s? e?).incomeByCategory,
        c.category = k) ↔ ∃ i ∈ filterByRange incomes s? e?, i.category = k) ∧
    (∀ c ∈ (getBudgetSummary incomes expenses s? e?).expenseByCategory,
      c.amount = (((filterByRange expenses s? e?).filter
          (fun i => i.category == c.category)).map (fun i => i.amount)).sum ∧
      c.percentage = (if 0 < (getBudgetSummary incomes expenses s? e?).totalExpense then
          c.amount / (getBudgetSummary incomes expenses s? e?).totalExpense * 100 else 0)) ∧
    (∀ k, (∃ c ∈ (getBudgetSummary incomes expenses s? e?).expenseByCategory,
        c.category = k) ↔ ∃ i ∈ filterByRange expenses s? e?, i.category = k) := by
  have htI : (getBudgetSummary incomes expenses s? e?).totalIncome =
      ((filterByRange incomes s? e?).map (fun i => i.amount)).sum := by
    simp only [getBudgetSummary]
    rw [foldl_add_eq_sum (fun i : EntryR => i.amount)]
    simp
  have htE : (getBudgetSummary incomes expenses s? e?).totalExpense =
      ((filterByRange expenses s? e?).map (fun i => i.amount)).sum := by
    simp only [getBudgetSummary]
    rw [foldl_add_eq_sum (fun i : EntryR => i.amount)]
    simp
  refine ⟨by rw [htI, filterByRange_eq], by rw [htE, filterByRange_eq], ?_, ?_, ?_, ?_, ?_⟩
  · simp only [getBudgetSummary]
  · intro c hc
    have hmap : (getBudgetSummary incomes expenses s? e?).incomeByCategory =
        (categoryTotals (filterByRange incomes s? e?)).map (fun e =>
          { category := e.1, amount := e.2,
            percentage := if 0 < (getBudgetSummary incomes expenses s? e?).totalIncome then
              e.2 / (getBudgetSummary incomes expenses s? e?).totalIncome * 100 else 0 }) := by
      simp only [getBudgetSummary]
    rw [hmap] at hc
    rcases List.mem_map.mp hc with ⟨p, hp, rfl⟩
    exact ⟨(categoryTotals_spec (filterByRange incomes s? e?)).1 p hp, rfl⟩
  · intro k
    have hmap : (getBudgetSummary incomes expenses s? e?).incomeByCategory =
        (categoryTotals (filterByRange incomes s? e?)).map (fun e =>
          { category := e.1, amount := e.2,
            percentage := if 0 < (getBudgetSummary incomes expenses s? e?).totalIncome then
              e.2 / (getBudgetSummary incomes expenses s? e?).totalIncome * 100 else 0 }) := by
      simp only [getBudgetSummary]
    rw [hmap]
    have hmem := (categoryTotals_spec (filterByRange incomes s? e?)).2.2 k
    constructor
    · rintro ⟨c, hc, rfl⟩
      rcases List.mem_map.mp hc with ⟨p, hp, rfl⟩
      exact hmem.mp (List.mem_map_of_mem Prod.fst hp)
    · intro h
      rcases List.mem_map.mp (hmem.mpr h) with ⟨p, hp, rfl⟩
      exact ⟨_, List.mem_map_of_mem _ hp, rfl⟩
  · intro c hc
    have hmap : (getBudgetSummary incomes expenses s? e?).expenseByCategory =
        (categoryTotals (filterByRange expenses s? e?)).map (fun e =>
          { category := e.1, amount := e.2,
            percentage := if 0 < (getBudgetSummary incomes expenses s? e?).totalExpense then
              e.2 / (getBudgetSummary incomes expenses s? e?).totalExpense * 100 else 0 }) := by
      simp only [getBudgetSummary]
    rw [hmap] at hc
    rcases List.mem_map.mp hc with ⟨p, hp, rfl⟩
    exact ⟨(categoryTotals_spec (filterByRange expenses s? e?)).1 p hp, rfl⟩
  · intro k
    have hmap : (getBudgetSummary incomes expenses s? e?).expenseByCategory =
        (categoryTotals (filterByRange expenses s? e?)).map (fun e =>
          { category := e.1, amount := e.2,
            percentage := if 0 < (getBudgetSummary incomes expenses s? e?).totalExpense then
              e.2 / (getBudgetSummary incomes expenses s? e?).totalExpense * 100 else 0 }) := by
      simp only [getBudgetSummary]
    rw [hmap]
    have hmem := (categoryTotals_spec (filterByRange expenses s? e?)).2.2 k
    constructor
    · rintro ⟨c, hc, rfl⟩
      rcases List.mem_map.mp hc with ⟨p, hp, rfl⟩
      exact hmem.mp (List.mem_map_of_mem Prod.fst hp)
    · intro h
      rcases List.mem_map.mp (hmem.mpr h) with ⟨p, hp, rfl⟩
      exact ⟨_, List.mem_map_of_mem _ hp, rfl⟩

/-- A concrete in-range income entry, used by the C6 witness. -/
def sampleIncome : EntryR :=
  { category := "maaş", description := "d", amount := 100, date := 5 }

/-- A concrete income entry with a negative amount, used by the C6
counterexample. -/
def negativeIncome : EntryR :=
  { category := "maaş", description := "d", amount := -5, date := 0 }

/-- Witness for `budget_summary_correct`: one in-range salary entry of 100;
its category row carries amount 100 and (total = 100 > 0) percentage 100. -/
theorem budget_summary_correct_witness :
    ({ category := "maaş", amount := 100, percentage := 100 } : CategoryAmount) ∈
      (getBudgetSummary [sampleIncome] [] (some 0) (some 10)).incomeByCategory ∧
    ({ category := "maaş", amount := 100, percentage := 100 } : CategoryAmount).amount =
      (((filterByRange [sampleIncome] (some 0) (some 10)).filter
        (fun i => i.category == ({ category := "maaş", amount := 100,
                                   percentage := 100 } : CategoryAmount).category)).map
          (fun i => i.amount)).sum := by
  have hmem : ({ category := "maaş", amount := 100, percentage := 100 } : CategoryAmount) ∈
      (getBudgetSummary [sampleIncome] [] (some 0) (some 10)).incomeByCategory := by
    norm_num [getBudgetSummary, filterByRange, categoryTotals, categoryStep,
      smapSet, smapHas, smapFind, sampleIncome]
  exact ⟨hmem,
    ((budget_summary_correct [sampleIncome] [] (some 0) (some 10)).2.2.2.1 _ hmem).1⟩

/-- C6 counterexample to the unguarded percentage formula: a single income
of −5 gives `totalIncome = −5`; the code reports percentage 0 for its
category, while `amount / totalIncome × 100 = 100 ≠ 0` — so "percentage is
amount divided by the total times 100 (0 only when the total is 0)" fails
for a negative total. -/
theorem budget_negative_total_counterexample :
    (getBudgetSummary [negativeIncome] [] none none).totalIncome = -5 ∧
    (getBudgetSummary [negativeIncome] [] none none).incomeByCategory =
      [({ category := "maaş", amount := -5, percentage := 0 } : CategoryAmount)] ∧
    ((-5 : ℚ) / (-5) * 100 = 100) ∧ ((0 : ℚ) ≠ 100) := by
  refine ⟨?_, ?_, by norm_num, by norm_num⟩
  · norm_num [getBudgetSummary, filterByRange, negativeIncome]
  · norm_num [getBudgetSummary, filterByRange, categoryTotals, categoryStep,
      smapSet, smapHas, smapFind, negativeIncome]

structure PortfolioSummaryR where
  totalAssets : ℚ
  totalDebt : ℚ
  netWorth : ℚ
  monthlyChange : ℚ
  monthlyChangeAmount : ℚ
deriving Repr, DecidableEq

/-- `DatabaseStorage.getPortfolioSummary` (priceService.ts lines 653-696).
`cashBalance` is the balance of `getBudgetSummary()` called without dates. -/
def getPortfolioSummary (assets : List AssetR) (incomes expenses : List EntryR) :
    PortfolioSummaryR :=
  let investmentAssets := assets.foldl
    (fun acc a => acc + a.quantity * a.currentPrice) 0
  let cashBalance := (getBudgetSummary incomes expenses none none).balance
  let totalAssets := investmentAssets + max 0 cashBalance
  let totalDebt := if cashBalance < 0 then |cashBalance| else 0
  let netWorth := totalAssets - totalDebt
  let totalCost := assets.foldl (fun acc a => acc + a.quantity * a.averagePrice) 0
  { totalAssets := totalAssets
    totalDebt := totalDebt
    netWorth := netWorth
    monthlyChange := if 0 < totalCost then
        (investmentAssets - totalCost) / totalCost * 100 else 0
    monthlyChangeAmount := investmentAssets - totalCost }

/-- C4 (amended): `getPortfolioSummary` returns
`totalAssets = Σ qᵢ·cpᵢ + max 0 cash`, `totalDebt = max 0 (−cash)`,
`netWorth = totalAssets − totalDebt`, and
`monthlyChange = (inv − cost)/cost·100` whenever the cost basis is strictly
positive, but 0 whenever the cost basis is zero **or negative** (the code
guards with `totalCost > 0`, not `totalCost ≠ 0`). -/
theorem portfolio_summary_correct (assets : List AssetR) (incomes expenses : List EntryR) :
    (getPortfolioSummary assets incomes expenses).totalAssets =
      ((assets.map (fun a => a.quantity * a.currentPrice)).sum +
        max 0 (getBudgetSummary incomes expenses none none).balance) ∧
    (getPortfolioSummary assets incomes expenses).totalDebt =
      max 0 (-(getBudgetSummary incomes expenses none none).balance) ∧
    (getPortfolioSummary assets incomes expenses).netWorth =
      (getPortfolioSummary assets incomes expenses).totalAssets -
        (getPortfolioSummary assets incomes expenses).totalDebt ∧
    (0 < (assets.map (fun a => a.quantity * a.averagePrice)).sum →
      (getPortfolioSummary assets incomes expenses).monthlyChange =
        ((assets.map (fun a => a.quantity * a.currentPrice)).sum -
          (assets.map (fun a => a.quantity * a.averagePrice)).sum) /
          (assets.map (fun a => a.quantity * a.averagePrice)).sum * 100) ∧
    ((assets.map (fun a => a.quantity * a.averagePrice)).sum ≤ 0 →
      (getPortfolioSummary assets incomes expenses).monthlyChange = 0) ∧
    (getPortfolioSummary assets incomes expenses).monthlyChangeAmount =
      (assets.map (fun a => a.quantity * a.currentPrice)).sum -
        (assets.map (fun a => a.quantity * a.averagePrice)).sum := by
  have hinv : assets.foldl (fun acc a => acc + a.quantity * a.currentPrice) 0 =
      (assets.map (fun a => a.quantity * a.currentPrice)).sum := by
    rw [foldl_add_eq_sum (fun a : AssetR => a.quantity * a.currentPrice)]
    ring
  have hcost : assets.foldl (fun acc a => acc + a.quantity * a.averagePrice) 0 =
      (assets.map (fun a => a.quantity * a.averagePrice)).sum := by
    rw [foldl_add_eq_sum (fun a : AssetR => a.quantity * a.averagePrice)]
    ring
  refine ⟨?_, ?_, ?_, ?_, ?_, ?_⟩
  · simp only [getPortfolioSummary, hinv]
  · simp only [getPortfolioSummary]
    rcases le_or_lt 0 (getBudgetSummary incomes expenses none none).balance with h | h
    · rw [if_neg (not_lt.mpr h), max_eq_left (by linarith)]
    · rw [if_pos h, abs_of_neg h, max_eq_right (by linarith)]
  · simp only [getPortfolioSummary]
  · intro h
    simp only [getPortfolioSummary, hinv, hcost]
    rw [if_pos h]
  · intro h
    simp only [getPortfolioSummary, hcost]
    rw [if_neg (not_lt.mpr h)]
  · simp only [getPortfolioSummary, hinv, hcost]

/-- A concrete asset held at a negative average price, used by the C4
counterexample (reachable: the insert schema accepts negative decimals). -/
def negativeCostAsset : AssetR :=
  { id := "a1", type := "hisse", name := "A", symbol := "AAA", market := "BIST",
    quantity := 1, averagePrice := -1, currentPrice := 1, currency := "TRY" }

/-- C4 counterexample to the claim's monthly-change clause: with cost basis
−1 (≠ 0) the claimed formula gives −200, but the code returns 0 because it
only applies the formula when the cost basis is strictly positive. -/
theorem portfolio_negative_cost_counterexample :
    ([negativeCostAsset].map (fun a => a.quantity * a.averagePrice)).sum = -1 ∧
    ([negativeCostAsset].map (fun a => a.quantity * a.currentPrice)).sum = 1 ∧
    (getPortfolioSummary [negativeCostAsset] [] []).monthlyChange = 0 ∧
    (((1 : ℚ) - (-1)) / (-1) * 100 = -200) ∧ ((0 : ℚ) ≠ -200) := by
  refine ⟨?_, ?_, ?_, by norm_num, by norm_num⟩
  · norm_num [negativeCostAsset]
  · norm_num [negativeCostAsset]
  · norm_num [getPortfolioSummary, getBudgetSummary, filterByRange, categoryTotals,
      negativeCostAsset]

/-- A concrete asset with positive cost basis, used by the C4 witness. -/
def gainAsset : AssetR :=
  { id := "a1", type := "hisse", name := "A", symbol := "AAA", market := "BIST",
    quantity := 1, averagePrice := 1, currentPrice := 2, currency := "TRY" }

/-- Witness for `portfolio_summary_correct`: cost basis 1 > 0, so the
monthly change is `(2 − 1)/1·100`. -/
theorem portfolio_summary_correct_witness :
    (0 < ([gainAsset].map (fun a => a.quantity * a.averagePrice)).sum) ∧
    (getPortfolioSummary [gainAsset] [] []).monthlyChange =
      (([gainAsset].map (fun a => a.quantity * a.currentPrice)).sum -
        ([gainAsset].map (fun a => a.quantity * a.averagePrice)).sum) /
        ([gainAsset].map (fun a => a.quantity * a.averagePrice)).sum * 100 :=
  ⟨by norm_num [gainAsset],
   (portfolio_summary_correct [gainAsset] [] []).2.2.2.1 (by norm_num [gainAsset])⟩

/-- The `typeNames` display-name table with its `|| type` fallback
(priceService.ts lines 718-723, 734). -/
def typeDisplayName (t : String) : String :=
  if t == "hisse" then "Hisse Senetleri"
  else if t == "etf" then "ETF\x27ler"
  else if t == "kripto" then "Kripto Paralar"
  else if t == "gayrimenkul" then "Gayrimenkul"
  else t

/-- The `colors` table with its fallback (priceService.ts lines 725-730, 737). -/
def typeColor (t : String) : String :=
  if t == "hisse" then "hsl(var(--chart-1))"
  else if t == "etf" then "hsl(var(--chart-2))"
  else if t == "kripto" then "hsl(var(--chart-4))"
  else if t == "gayrimenkul" then "hsl(var(--chart-5))"
  else "hsl(var(--chart-1))"

structure AllocationEntry where
  type : String
  name : String
  value : ℚ
  percentage : ℚ
  color : String
deriving Repr, DecidableEq

/-- One iteration of the grouping loop of `getAssetAllocation`
(priceService.ts lines 705-716): add the asset's value to its type's
bucket (value and count) and to the running total. -/
def allocStep (acc : List (String × ℚ × ℕ) × ℚ) (a : AssetR) :
    List (String × ℚ × ℕ) × ℚ :=
  let value := a.quantity * a.currentPrice
  let existing := (smapFind acc.1 a.type).getD (0, 0)
  (smapSet acc.1 a.type (existing.1 + value, existing.2 + 1), acc.2 + value)

/-- `DatabaseStorage.getAssetAllocation` (priceService.ts lines 698-739). -/
def getAssetAllocation (assets : List AssetR) : List AllocationEntry :=
  let st := assets.foldl allocStep ([], 0)
  st.1.map (fun e =>
    { type := e.1, name := typeDisplayName e.1, value := e.2.1,
      percentage := if 0 < st.2 then e.2.1 / st.2 * 100 else 0,
      color := typeColor e.1 })

theorem overwrite_valSum (m : List (String × ℚ × ℕ)) (k : String) (w : ℚ × ℕ)
    (hnd : (m.map Prod.fst).Nodup) (hh : smapHas m k = true) :
    ((m.map (fun e => if e.1 == k then (k, w) else e)).map (fun e => e.2.1)).sum =
      (m.map (fun e => e.2.1)).sum - ((smapFind m k).getD (0, 0)).1 + w.1 := by
  induction m with
  | nil => simp [smapHas] at hh
  | cons e m ih =>
    by_cases he : (e.1 == k) = true
    · have he' : e.1 = k := by simpa using he
      have hnotin : e.1 ∉ m.map Prod.fst := (List.nodup_cons.mp (by simpa using hnd)).1
      have htail : ∀ b ∈ m, (b.1 == k) = false := by
        intro b hb
        simp only [beq_eq_false_iff_ne, ne_eq]
        intro hc
        exact hnotin (he' ▸ hc ▸ List.mem_map_of_mem Prod.fst hb)
      have hfind : smapFind (e :: m) k = some e.2 := by
        unfold smapFind
        rw [find?_cons_pos (fun x => x.1 == k) e m he]
        rfl
      rw [List.map_cons, if_pos he,
        map_if_id (fun b => b.1 == k) (fun _ => (k, w)) m htail, hfind]
      simp only [List.map_cons, List.sum_cons, Option.getD_some]
      ring
    · have he' : (e.1 == k) = false := by simpa using he
      have hh' : smapHas m k = true := by
        have := hh
        simp only [smapHas, List.any_cons, he', Bool.false_or] at this
        exact this
      have hnd' : (m.map Prod.fst).Nodup := (List.nodup_cons.mp (by simpa using hnd)).2
      have hfind : smapFind (e :: m) k = smapFind m k := by
        unfold smapFind
        rw [find?_cons_neg (fun x => x.1 == k) e m he']
      rw [List.map_cons, if_neg (by simp [he']), hfind]
      simp only [List.map_cons, List.sum_cons]
      rw [ih hnd' hh']
      ring

theorem smapSet_add_valSum (m : List (String × ℚ × ℕ)) (k : String) (v : ℚ)
    (hnd : (m.map Prod.fst).Nodup) :
    ((smapSet m k (((smapFind m k).getD (0, 0)).1 + v,
        ((smapFind m k).getD (0, 0)).2 + 1)).map (fun e => e.2.1)).sum =
      (m.map (fun e => e.2.1)).sum + v := by
  by_cases hh : smapHas m k = true
  · unfold smapSet
    rw [if_pos hh, overwrite_valSum m k _ hnd hh]
    ring
  · have hfind : smapFind m k = none := by
      have hf : smapHas m k = false := by simpa using hh
      rw [smapHas_eq_isSome] at hf
      have h0 : List.find? (fun e => e.1 == k) m = none :=
        Option.not_isSome_iff_eq_none.mp (by simp [hf])
      unfold smapFind
      rw [h0]
      rfl
    unfold smapSet
    rw [if_neg hh, hfind]
    simp

theorem allocFold_aux (l : List AssetR) (m : List (String × ℚ × ℕ)) (t : ℚ)
    (hnd : (m.map Prod.fst).Nodup) :
    ((l.foldl allocStep (m, t)).1.map Prod.fst).Nodup ∧
    (l.foldl allocStep (m, t)).2 =
      t + (l.map (fun a => a.quantity * a.currentPrice)).sum ∧
    ((l.foldl allocStep (m, t)).1.map (fun e => e.2.1)).sum =
      (m.map (fun e => e.2.1)).sum +
        (l.map (fun a => a.quantity * a.currentPrice)).sum ∧
    (∀ k, ((smapFind (l.foldl allocStep (m, t)).1 k).getD (0, 0)).1 =
      ((smapFind m k).getD (0, 0)).1 +
        ((l.filter (fun a => a.type == k)).map
          (fun a => a.quantity * a.currentPrice)).sum) := by
  induction l generalizing m t with
  | nil => exact ⟨hnd, by simp, by simp, by simp⟩
  | cons a l ih =>
    have hstep : allocStep (m, t) a =
        (smapSet m a.type (((smapFind m a.type).getD (0, 0)).1 + a.quantity * a.currentPrice,
          ((smapFind m a.type).getD (0, 0)).2 + 1), t + a.quantity * a.currentPrice) := rfl
    have hnd2 : ((smapSet m a.type
        (((smapFind m a.type).getD (0, 0)).1 + a.quantity * a.currentPrice,
          ((smapFind m a.type).getD (0, 0)).2 + 1)).map Prod.fst).Nodup :=
      smapSet_keys_nodup _ _ _ hnd
    obtain ⟨ihnd, ihtot, ihsum, ihkey⟩ := ih
      (smapSet m a.type (((smapFind m a.type).getD (0, 0)).1 + a.quantity * a.currentPrice,
        ((smapFind m a.type).getD (0, 0)).2 + 1))
      (t + a.quantity * a.currentPrice) hnd2
    refine ⟨?_, ?_, ?_, ?_⟩
    · rw [List.foldl_cons, hstep]
      exact ihnd
    · rw [List.foldl_cons, hstep, ihtot, List.map_cons, List.sum_cons]
      ring
    · rw [List.foldl_cons, hstep, ihsum,
        smapSet_add_valSum m a.type (a.quantity * a.currentPrice) hnd,
        List.map_cons, List.sum_cons]
      ring
    · intro k
      rw [List.foldl_cons, hstep, ihkey k]
      by_cases hk : k = a.type
      · rw [hk, smapFind_set_self, List.filter_cons_of_pos (by simp),
          List.map_cons, List.sum_cons]
        simp only [Option.getD_some]
        ring
      · rw [smapFind_set_other m a.type k _ hk,
          List.filter_cons_of_neg (by simpa using fun hc => hk hc.symm)]

theorem sum_map_div_mul (l : List (String × ℚ × ℕ)) (t : ℚ) :
    (l.map (fun e => e.2.1 / t * 100)).sum = (l.map (fun e => e.2.1)).sum / t * 100 := by
  induction l with
  | nil => simp
  | cons e l ih =>
    rw [List.map_cons, List.sum_cons, ih, List.map_cons, List.sum_cons]
    ring

/-- C5 (amended): whenever the total portfolio value `Σ qᵢ·cpᵢ` is strictly
positive, the allocation percentages sum to exactly 100 and each group's
percentage is its value over the total times 100; whenever the total is
zero **or negative** every percentage is 0 (the code guards with
`total > 0`, so a negative total — possible only with negative stored
values — also yields 0, not `value/total·100`).  Each group's value is the
sum of `quantity × currentPrice` over the assets of that type. -/
theorem asset_allocation_correct (assets : List AssetR) :
    (0 < (assets.map (fun a => a.quantity * a.currentPrice)).sum →
      ((getAssetAllocation assets).map (fun e => e.percentage)).sum = 100 ∧
      ∀ e ∈ getAssetAllocation assets,
        e.percentage =
          e.value / (assets.map (fun a => a.quantity * a.currentPrice)).sum * 100) ∧
    ((assets.map (fun a => a.quantity * a.currentPrice)).sum ≤ 0 →
      ∀ e ∈ getAssetAllocation assets, e.percentage = 0) ∧
    (∀ e ∈ getAssetAllocation assets,
      e.value = ((assets.filter (fun a => a.type == e.type)).map
        (fun a => a.quantity * a.currentPrice)).sum) := by
  obtain ⟨hnd, htot, hsum, hkey⟩ := allocFold_aux assets [] 0 (by simp)
  have htot' : (assets.foldl allocStep ([], 0)).2 =
      (assets.map (fun a => a.quantity * a.currentPrice)).sum := by
    rw [htot]; ring
  refine ⟨?_, ?_, ?_⟩
  · intro hpos
    constructor
    · unfold getAssetAllocation
      rw [List.map_map]
      rw [show ((fun e : AllocationEntry => e.percentage) ∘
          (fun e : String × ℚ × ℕ =>
            ({ type := e.1, name := typeDisplayName e.1, value := e.2.1,
               percentage := if 0 < (assets.foldl allocStep ([], 0)).2 then
                 e.2.1 / (assets.foldl allocStep ([], 0)).2 * 100 else 0,
               color := typeColor e.1 } : AllocationEntry))) =
          (fun e : String × ℚ × ℕ =>
            if 0 < (assets.foldl allocStep ([], 0)).2 then
              e.2.1 / (assets.foldl allocStep ([], 0)).2 * 100 else 0) from rfl]
      have hif : (assets.foldl allocStep ([], 0)).1.map
          (fun e : String × ℚ × ℕ =>
            if 0 < (assets.foldl allocStep ([], 0)).2 then
              e.2.1 / (assets.foldl allocStep ([], 0)).2 * 100 else 0) =
          (assets.foldl allocStep ([], 0)).1.map
            (fun e : String × ℚ × ℕ => e.2.1 / (assets.foldl allocStep ([], 0)).2 * 100) := by
        apply List.map_congr_left
        intro e _
        rw [if_pos (by rw [htot']; exact hpos)]
      have hsum' : ((assets.foldl allocStep ([], 0)).1.map (fun e => e.2.1)).sum =
          (assets.map (fun a => a.quantity * a.currentPrice)).sum := by
        rw [hsum]; simp
      rw [hif, sum_map_div_mul, htot', hsum', div_self (ne_of_gt hpos)]
      ring
    · intro e he
      unfold getAssetAllocation at he
      rcases List.mem_map.mp he with ⟨p, hp, rfl⟩
      simp only
      rw [if_pos (by rw [htot']; exact hpos), htot']
  · intro hneg e he
    unfold getAssetAllocation at he
    rcases List.mem_map.mp he with ⟨p, hp, rfl⟩
    simp only
    rw [if_neg (by rw [htot']; exact not_lt.mpr hneg)]
  · intro e he
    unfold getAssetAllocation at he
    rcases List.mem_map.mp he with ⟨p, hp, rfl⟩
    simp only
    have hfind := smapFind_of_mem _ p hnd hp
    have h4 := hkey p.1
    rw [hfind] at h4
    simpa [smapFind] using h4

/-- A concrete asset whose value is negative, used by the C5 counterexample
(reachable: the insert schema accepts negative decimals). -/
def negativeValueAsset : AssetR :=
  { id := "a1", type := "hisse", name := "A", symbol := "AAA", market := "BIST",
    quantity := 1, averagePrice := 1, currentPrice := -1, currency := "TRY" }

/-- C5 counterexample to the unguarded percentage formula: with a single
asset of value −1 the total is −1 ≠ 0, the claimed formula gives
`(−1)/(−1)·100 = 100`, but the code reports percentage 0 because it only
divides when the total is strictly positive. -/
theorem allocation_negative_total_counterexample :
    (getAssetAllocation [negativeValueAsset]).map (fun e => e.percentage) = [0] ∧
    ([negativeValueAsset].map (fun a => a.quantity * a.currentPrice)).sum = -1 ∧
    ((-1 : ℚ) / (-1) * 100 = 100) ∧ ((0 : ℚ) ≠ 100) := by
  refine ⟨?_, by norm_num [negativeValueAsset], by norm_num, by norm_num⟩
  norm_num [getAssetAllocation, allocStep, smapSet, smapFind, smapHas, negativeValueAsset]

/-- Two concrete assets of positive value, used by the C5 witness. -/
def equityAsset : AssetR :=
  { id := "a1", type := "hisse", name := "A", symbol := "AAA", market := "BIST",
    quantity := 10, averagePrice := 8, currentPrice := 10, currency := "TRY" }

def cryptoAsset : AssetR :=
  { id := "a2", type := "kripto", name := "B", symbol := "BTC", market := "Diğer",
    quantity := 3, averagePrice := 90, currentPrice := 100, currency := "TRY" }

/-- Witness for `asset_allocation_correct`: portfolio value 400 > 0, so the
two group percentages (25 and 75) sum to 100. -/
theorem asset_allocation_correct_witness :
    (0 < ([equityAsset, cryptoAsset].map (fun a => a.quantity * a.currentPrice)).sum) ∧
    ((getAssetAllocation [equityAsset, cryptoAsset]).map (fun e => e.percentage)).sum = 100 :=
  ⟨by norm_num [equityAsset, cryptoAsset],
   ((asset_allocation_correct [equityAsset, cryptoAsset]).1
     (by norm_num [equityAsset, cryptoAsset])).1⟩

/-! ### Monthly performance

`getMonthlyPerformance` (priceService.ts lines 741-804) folds the result of
`getTransactions()` — which is ordered by **descending** date — through the
buy/sell rule, against JavaScript calendar arithmetic
(`setMonth` then `setDate(1)`).  Dates are modelled at day granularity:
`SDate` is an absolute month number (`year*12 + monthIndex`) plus a day of
month, linearised order-faithfully by `dateOrd` (day ≤ 31 < 32). -/

/-- One step of the replay fold over `assetValuesAtDate`
(priceService.ts lines 764-785). -/
def replayStep (h : List (String × ℚ × ℚ)) (t : TransactionR) :
    List (String × ℚ × ℚ) :=
  let existing := (smapFind h t.assetId).getD (0, 0)
  let transactionQuantity := t.quantity
  let transactionPrice := t.price
  if t.type == "alış" then
    let currentValue := existing.1 * existing.2
    let newValue := transactionQuantity * transactionPrice
    let newQuantity := existing.1 + transactionQuantity
    let newAveragePrice := if 0 < newQuantity then (currentValue + newValue) / newQuantity else 0
    smapSet h t.assetId (newQuantity, newAveragePrice)
  else if t.type == "satış" then
    smapSet h t.assetId (max 0 (existing.1 - transactionQuantity), existing.2)
  else h

/-- The whole replay, in the order the transaction list is stored —
`getTransactions()` returns it date-descending. -/
def replayHoldings (txs : List TransactionR) : List (String × ℚ × ℚ) :=
  txs.foldl replayStep []

/-- Gregorian leap-year rule, as JavaScript `Date` implements it. -/
def isLeapYear (y : ℤ) : Bool :=
  (Int.emod y 4 == 0 && Int.emod y 100 != 0) || Int.emod y 400 == 0

/-- Days in the month with absolute month number `ym`
(month index `ym emod 12`, 0 = January). -/
def daysInMonth (ym : ℤ) : ℤ :=
  let m := Int.emod ym 12
  if m == 1 then (if isLeapYear (Int.ediv ym 12) then 29 else 28)
  else if m == 3 || m == 5 || m == 8 || m == 10 then 30
  else 31

/-- A calendar date at day granularity: absolute month number and day. -/
structure SDate where
  ym : ℤ
  day : ℤ
deriving Repr, DecidableEq

/-- Order-faithful linearisation of dates (day of month is at most 31). -/
def dateOrd (d : SDate) : ℤ := d.ym * 32 + d.day

/-- JavaScript `d.setMonth(month + k); d.setDate(1)` where `d` starts as
`today`: `setMonth` keeps the day of month, so when that day exceeds the
target month's length the date rolls over into the following month
**before** `setDate(1)` is applied. -/
def jsMonthShift (today : SDate) (k : ℤ) : SDate :=
  let ym1 := today.ym + k
  if daysInMonth ym1 < today.day then { ym := ym1 + 1, day := 1 }
  else { ym := ym1, day := 1 }

/-- The `months` label table (priceService.ts line 742). -/
def monthsTR : List String :=
  ["Oca", "Şub", "Mar", "Nis", "May", "Haz", "Tem", "Ağu", "Eyl", "Eki", "Kas", "Ara"]

/-- `DatabaseStorage.getMonthlyPerformance` (priceService.ts lines 741-804):
for `i = 11 .. 0`, take the 1st of the month `i` months back (with the
`setMonth` overflow semantics of `jsMonthShift`), replay the stored
transaction list filtered to dates on or before that day, and value the
reconstructed positive quantities at today's `currentPrice`. -/
def getMonthlyPerformance (today : SDate) (txs : List TransactionR)
    (assets : List AssetR) : List (String × ℚ) :=
  (List.range 12).map (fun j =>
    let i : ℤ := 11 - (j : ℤ)
    let targetDate := jsMonthShift today (-i)
    let relevantTransactions := txs.filter (fun t => t.date ≤ dateOrd targetDate)
    let assetValuesAtDate := relevantTransactions.foldl replayStep []
    let totalValue := assetValuesAtDate.foldl (fun acc e =>
      match getAsset assets e.1 with
      | some a => if 0 < e.2.1 then acc + e.2.1 * a.currentPrice else acc
      | none => acc) 0
    (monthsTR.getD (Int.emod targetDate.ym 12).toNat "", totalValue))

/-- A fresh asset (quantity 0), used by the C3 demonstration. -/
def freshAsset : AssetR :=
  { id := "a1", type := "hisse", name := "A", symbol := "AAA", market := "BIST",
    quantity := 0, averagePrice := 0, currentPrice := 10, currency := "TRY" }

/-- Buy 5 at 10 on day 1. -/
def buyTx : TransactionR :=
  { id := "t1", assetId := "a1", type := "alış", quantity := 5, price := 10,
    totalAmount := 50, date := 1 }

/-- Sell 3 on day 2. -/
def sellTx : TransactionR :=
  { id := "t2", assetId := "a1", type := "satış", quantity := 3, price := 12,
    totalAmount := 36, date := 2 }

/-- C3: replay as `getMonthlyPerformance` performs it does NOT reproduce the
incremental state.  Incremental application of buy-5-then-sell-3 leaves
quantity 2; the replay folds `getTransactions()`'s date-descending order
(sell first, clamped at 0, then buy), reconstructing quantity 5.  Valued at
`currentPrice` 10, the current-month entry reports 50 instead of 20. -/
theorem replay_desc_order_bug :
    ((getAsset (createTransaction (createTransaction [freshAsset] buyTx) sellTx) "a1").map
      (fun a => a.quantity)) = some 2 ∧
    (smapFind (replayHoldings [sellTx, buyTx]) "a1").map (fun p => p.1) = some 5 ∧
    ((getMonthlyPerformance { ym := 24300, day := 1 } [sellTx, buyTx]
        [freshAsset]).getD 11 ("", 0)) = ("Oca", 50) ∧
    ((2 : ℚ) ≠ 5) := by
  refine ⟨?_, ?_, ?_, by norm_num⟩
  · norm_num [createTransaction, getAsset, freshAsset, buyTx, sellTx, roundTo2]
    simp
  · norm_num [replayHoldings, replayStep, smapFind, smapSet, smapHas,
      freshAsset, buyTx, sellTx]
    simp [smapHas]
  · norm_num [getMonthlyPerformance, jsMonthShift, daysInMonth, isLeapYear,
      dateOrd, monthsTR, replayStep, smapFind, smapSet, smapHas, getAsset,
      freshAsset, buyTx, sellTx, List.range_succ]
    simp [smapHas]
    norm_num

/-- C8: demonstration at current date 2025-01-31 (`ym = 2025·12 = 24300`,
day 31): `setMonth` overflow makes the 12 targets skip February 2024 and
hit March 2024 (and May, July, October, December) twice, so the label list
is not "one per trailing calendar month".  The list still has 12 entries. -/
theorem monthly_performance_label_bug :
    ((getMonthlyPerformance { ym := 24300, day := 31 } [] []).map Prod.fst) =
      ["Mar", "Mar", "May", "May", "Tem", "Tem", "Ağu", "Eki", "Eki", "Ara", "Ara", "Oca"] ∧
    "Şub" ∉ ((getMonthlyPerformance { ym := 24300, day := 31 } [] []).map Prod.fst) ∧
    (getMonthlyPerformance { ym := 24300, day := 31 } [] []).length = 12 := by
  refine ⟨?_, ?_, ?_⟩
  · decide
  · decide
  · decide
